import Mathlib

/-!
# Verification of the `redis-csc` client-side cache core

Shallow embedding of `RedisClientSideCache` (file `src/unnamed/part_002`).

Modelling conventions:
* The JS plain objects `#localCache` and `#localCacheKeyTTLMap` are modelled
  as association lists from `String` keys; only the key→value mapping is
  observed by the properties below, not the iteration order of the object.
* JS `null`/`undefined` values stored in `#localCache` are modelled as
  `Option String` values (`none` = `null`); absence of the property is
  absence of the key in the association list.
* `Date.now()` is passed in explicitly as `now : Nat` (milliseconds).
* Remote (Redis) interaction is an explicit parameter of each operation:
  the value a `GET` would return, a success/failure flag for writes, etc.
* Thrown JS exceptions are modelled with `Except String`; since a throw
  leaves `this` mutated, operations return `CS × Except String β`.
* Fields that are assigned in the constructor and never mutated
  (`#prefixes`, `#localCacheTTL`, `#defaultExpiry`) are collected in a
  `Config` parameter instead of the mutable state.
-/

namespace RedisCSC

/-- Association list with `String` keys standing for a JS plain object.  -/
abbrev AList (α : Type) := List (String × α)

/-- Property lookup `m[k]` (`none` = property absent / `undefined`). -/
def aget {α : Type} : AList α → String → Option α
  | [], _ => none
  | (k', v) :: t, k => if k' = k then some v else aget t k

/-- `delete m[k]`: remove every binding of `k`. -/
def adel {α : Type} : AList α → String → AList α
  | [], _ => []
  | (k', v) :: t, k => if k' = k then adel t k else (k', v) :: adel t k

/-- `m[k] = v`: (re)bind `k` to `v`.  Iteration order is not observed by any
property below, so replacement-in-place is modelled as rebind-at-front. -/
def aset {α : Type} (m : AList α) (k : String) (v : α) : AList α :=
  (k, v) :: adel m k

/-- Configuration fixed at construction time (never mutated afterwards). -/
structure Config where
  prefixes : List String
  /-- `#localCacheTTL`, in milliseconds. -/
  localCacheTTL : Nat
  /-- `#defaultExpiry`, in seconds. -/
  defaultExpiry : Nat

/-- Constructor logic for `#localCacheTTL`:
`(typeof cacheTTL === 'number' && cacheTTL > 0) ? cacheTTL : 300*1000`.
`none` models a non-number / missing argument. -/
def mkLocalCacheTTL (cacheTTL : Option Int) : Nat :=
  match cacheTTL with
  | some t => if 0 < t then t.toNat else 300 * 1000
  | none => 300 * 1000

/-- Constructor logic for `#defaultExpiry`:
`(typeof defaultExpiry === 'number' && defaultExpiry >= 0) ? defaultExpiry : 60*60*24*7`. -/
def mkDefaultExpiry (defaultExpiry : Option Int) : Nat :=
  match defaultExpiry with
  | some e => if 0 ≤ e then e.toNat else 60 * 60 * 24 * 7
  | none => 60 * 60 * 24 * 7

/-- The mutable cache state: `#localCache` and `#localCacheKeyTTLMap`. -/
structure CS where
  /-- `#localCache`: key → stored value (a JS string or `null`). -/
  localCache : AList (Option String)
  /-- `#localCacheKeyTTLMap`: key → absolute expiry timestamp (ms). -/
  ttlMap : AList Nat

/-- The empty store a fresh instance starts from. -/
def CS.empty : CS := ⟨[], []⟩

/-- Character-level model of JS `key.startsWith(p)` (equivalent to
`String.startsWith`, which the kernel cannot evaluate). -/
def jsStartsWith (key p : String) : Bool :=
  p.toList.isPrefixOf key.toList

/-- Helper for `jsSplit`: accumulate the current field (reversed). -/
def splitCharAux (sep : Char) : List Char → List Char → List String
  | [], acc => [String.mk acc.reverse]
  | c :: rest, acc =>
    if c = sep then String.mk acc.reverse :: splitCharAux sep rest []
    else splitCharAux sep rest (c :: acc)

/-- Character-level model of JS `s.split(sep)` for a one-character
separator: `"a,,b" ↦ ["a", "", "b"]`, `"" ↦ [""]`. -/
def jsSplit (s : String) (sep : Char) : List String :=
  splitCharAux sep s.toList []

/-- `#qualifiesPrefix(key)`: non-strings never qualify (callers below pass
genuine strings); empty prefix list never qualifies; otherwise
`prefixes.some(p => key.startsWith(p))`. -/
def qualifiesPrefix (cfg : Config) (key : String) : Bool :=
  if cfg.prefixes.length = 0 then false
  else cfg.prefixes.any (fun p => jsStartsWith key p)

/-- `#setLocalValue(key, value, expiry)`.  `expiry` is in seconds
(`none` = `undefined`); `expiry && expiry > 0` is JS-truthy exactly for a
present positive number.  The stored timestamp is
`Date.now() + (expiryms > #localCacheTTL ? #localCacheTTL : expiryms)`. -/
def setLocalValue (cfg : Config) (cs : CS) (now : Nat) (key : String)
    (value : Option String) (expiry : Option Nat) : CS :=
  if qualifiesPrefix cfg key = false then cs
  else
    let expiryms : Nat :=
      match expiry with
      | some e => if 0 < e then e * 1000 else cfg.localCacheTTL
      | none => cfg.localCacheTTL
    { localCache := aset cs.localCache key value
      ttlMap := aset cs.ttlMap key
        (now + (if cfg.localCacheTTL < expiryms then cfg.localCacheTTL else expiryms)) }

/-- `#getLocalValue(key)`.  The guard
`this.#localCacheKeyTTLMap[key] && this.#localCacheKeyTTLMap[key] < Date.now()`
is JS-truthy exactly when the timestamp is present, non-zero and `< now`.
Returns the (possibly `null`) cached value; `null` on the expiry path. -/
def getLocalValue (cs : CS) (now : Nat) (key : String) : CS × Option String :=
  match aget cs.ttlMap key with
  | some t =>
    if t ≠ 0 ∧ t < now then
      ({ localCache := adel cs.localCache key, ttlMap := adel cs.ttlMap key }, none)
    else (cs, (aget cs.localCache key).join)
  | none => (cs, (aget cs.localCache key).join)

/-- `#deleteLocalValue(key)`. -/
def deleteLocalValue (cs : CS) (key : String) : CS :=
  { localCache := adel cs.localCache key, ttlMap := adel cs.ttlMap key }

/-- `clearLocalCache()`. -/
def clearLocalCache (_cs : CS) : CS := ⟨[], []⟩

/-- `getLocalCacheStats().size`: `Object.keys(#localCache).length`. -/
def statsSize (cs : CS) : Nat := (cs.localCache.map (·.1)).length

/-- JS truthiness of a string-or-null value: `null`, `undefined` and the
empty string are falsy. -/
def isTruthy (v : Option String) : Bool :=
  match v with
  | some s => s ≠ ""
  | none => false

/-- Result of `getCached`.  `fetchedRemote` instruments whether the
`this.#redisClient.get(key)` call was issued. -/
structure GetRes where
  data : Option String
  cacheHits : Nat
  cacheMisses : Nat
  fetchedRemote : Bool
  deriving Repr, DecidableEq

/-- `getCached(key)`; the client is assumed ready (the claims under study
are about the ready path).  `remote` is the value Redis would return for
`key` (`none` = Redis `null`); `fetchOk` is whether that `GET` succeeds.
On the local-truthy path `{data, 1, 0}` is returned without touching
Redis; otherwise the code runs `#setLocalValue(key, value)` (no expiry
argument) and then, when the value is non-null and the key qualifies,
redundantly re-stores value and `Date.now() + #localCacheTTL`. -/
def getCached (cfg : Config) (cs : CS) (now : Nat) (key : String)
    (remote : Option String) (fetchOk : Bool) : CS × Except String GetRes :=
  let (cs1, v) := getLocalValue cs now key
  if isTruthy v then
    (cs1, .ok ⟨v, 1, 0, false⟩)
  else if fetchOk then
    let cs2 := setLocalValue cfg cs1 now key remote none
    let cs3 :=
      if remote ≠ none ∧ qualifiesPrefix cfg key = true then
        { localCache := aset cs2.localCache key remote
          ttlMap := aset cs2.ttlMap key (now + cfg.localCacheTTL) }
      else cs2
    (cs3, .ok ⟨remote, 0, 1, true⟩)
  else
    (cs1, .error "Failed to fetch key from Redis")

/-- The effective remote expiry of `setCached` / `mSetCached`:
`(typeof expiry === 'number' && expiry >= 0) ? expiry : this.#defaultExpiry`.
`none` models `undefined` (or any non-number). -/
def effectiveExpiry (cfg : Config) (expiry : Option Int) : Nat :=
  match expiry with
  | some e => if 0 ≤ e then e.toNat else cfg.defaultExpiry
  | none => cfg.defaultExpiry

/-- `setCached(key, value, expiry)` with a ready client and a non-null
`value` already coerced to a string.  `remoteOk` is whether the Redis
`SET` succeeds; on failure no local mutation has happened yet. -/
def setCached (cfg : Config) (cs : CS) (now : Nat) (key : String)
    (value : String) (expiry : Option Int) (remoteOk : Bool) :
    CS × Except String String :=
  let expireSecs := effectiveExpiry cfg expiry
  if remoteOk then
    (setLocalValue cfg cs now key (some value) (some expireSecs), .ok "OK")
  else
    (cs, .error "Failed to set key in Redis")

/-- A JS value handed to `mGetCached` inside the keys array. -/
inductive JVal : Type
  | str : String → JVal
  | num : Int → JVal
  deriving Repr, DecidableEq

/-- `String(v)` for the purposes of using `v` as an object property name. -/
def JVal.toPropName : JVal → String
  | .str s => s
  | .num n => toString n

def JVal.isStr : JVal → Bool
  | .str _ => true
  | _ => false

/-- Result of `mGetCached`. -/
structure MGetRes where
  data : AList (Option String)
  cacheHits : Nat
  cacheMisses : Nat
  deriving Repr, DecidableEq

/-- Accumulator of the first loop of `mGetCached`. -/
structure MGetAcc where
  cs : CS
  results : AList (Option String)
  hits : Nat
  toFetch : List String

/-- One iteration of the first loop of `mGetCached`: a non-string key is
skipped with a warning (`results[key] = null`); a string key is looked up
locally (possibly evicting an expired entry) and either counted as a hit
or queued for the Redis `MGET`. -/
def mgetStep (now : Nat) (acc : MGetAcc) (k : JVal) : MGetAcc :=
  match k with
  | .str s =>
    let (cs', v) := getLocalValue acc.cs now s
    if isTruthy v then
      { acc with cs := cs', results := aset acc.results s v, hits := acc.hits + 1 }
    else
      { acc with cs := cs', results := aset acc.results s none,
                 toFetch := acc.toFetch ++ [s] }
  | k =>
    { acc with results := aset acc.results k.toPropName none }

/-- Second loop of `mGetCached`: record each fetched value (possibly
null) in the results and run `#setLocalValue(key, value)`. -/
def mgetFill (cfg : Config) (now : Nat) (remote : String → Option String) :
    CS × AList (Option String) → String → CS × AList (Option String) :=
  fun (cs, results) k =>
    (setLocalValue cfg cs now k (remote k) none, aset results k (remote k))

/-- First loop of `mGetCached` over the whole keys array. -/
def mgetPhase1 (now : Nat) (keys : List JVal) (cs : CS) : MGetAcc :=
  keys.foldl (mgetStep now) ⟨cs, [], 0, []⟩

/-- Second loop of `mGetCached` over the missed keys. -/
def mgetPhase2 (cfg : Config) (now : Nat) (remote : String → Option String)
    (acc : MGetAcc) : CS × AList (Option String) :=
  acc.toFetch.foldl (mgetFill cfg now remote) (acc.cs, acc.results)

/-- `mGetCached(keys)` with a ready client.  `remote` gives the value the
batched `MGET` returns for each missed key; `mgetOk` is whether that
`MGET` call succeeds (when it is issued at all). -/
def mGetCached (cfg : Config) (cs : CS) (now : Nat) (keys : List JVal)
    (remote : String → Option String) (mgetOk : Bool) :
    CS × Except String MGetRes :=
  if 0 < (mgetPhase1 now keys cs).toFetch.length then
    if mgetOk then
      ((mgetPhase2 cfg now remote (mgetPhase1 now keys cs)).1,
       .ok ⟨(mgetPhase2 cfg now remote (mgetPhase1 now keys cs)).2,
            (mgetPhase1 now keys cs).hits,
            (mgetPhase1 now keys cs).toFetch.length⟩)
    else
      ((mgetPhase1 now keys cs).cs, .error "Failed to fetch keys from Redis")
  else
    ((mgetPhase1 now keys cs).cs,
     .ok ⟨(mgetPhase1 now keys cs).results,
          (mgetPhase1 now keys cs).hits,
          (mgetPhase1 now keys cs).toFetch.length⟩)

/-- Where `mSetCached` can fail remotely: the batched `MSET` itself, or
the later best-effort `MULTI`/`EXPIRE` pipeline (only reachable when an
expiry is actually applied). -/
inductive MSetOutcome : Type
  | ok
  | msetFail
  | expireFail
  deriving Repr, DecidableEq

/-- `mSetCached(data, expiry)` with a ready client.  `data` maps keys to
JS values where `none` models `null`/`undefined` (such entries are
skipped with a warning, the rest are already coerced to strings).  On a
remote failure the `catch` block deletes every *attempted* key that
qualifies from `#localCache` — and only from `#localCache`, the
`#localCacheKeyTTLMap` entry is left behind. -/
def msetFiltered (data : List (String × Option String)) : List (String × String) :=
  data.filterMap (fun p => p.2.map (fun s => (p.1, s)))

/-- Rollback loop of the `catch` block of `mSetCached`: delete every
attempted key that qualifies — from `#localCache` only. -/
def msetRollback (cfg : Config) (l : List (String × String))
    (c : AList (Option String)) : AList (Option String) :=
  l.foldl (fun c p => if qualifiesPrefix cfg p.1 = true then adel c p.1 else c) c

/-- Local-population loop of the success path of `mSetCached`. -/
def msetPopulate (cfg : Config) (now : Nat) (data : List (String × Option String))
    (expiry : Option Int) (cs : CS) : CS :=
  (msetFiltered data).foldl
    (fun st p => setLocalValue cfg st now p.1 (some p.2)
      (some (effectiveExpiry cfg expiry))) cs

def mSetCached (cfg : Config) (cs : CS) (now : Nat)
    (data : List (String × Option String)) (expiry : Option Int)
    (outcome : MSetOutcome) : CS × Except String String :=
  if data.length = 0 then (cs, .ok "OK")
  else if (msetFiltered data).length = 0 then (cs, .ok "OK")
  else if outcome = .msetFail then
    (⟨msetRollback cfg (msetFiltered data) cs.localCache, cs.ttlMap⟩,
     .error "Failed to set keys/expiry in Redis")
  else if 0 < effectiveExpiry cfg expiry ∧ outcome = .expireFail then
    (⟨msetRollback cfg (msetFiltered data)
        (msetPopulate cfg now data expiry cs).localCache,
      (msetPopulate cfg now data expiry cs).ttlMap⟩,
     .error "Failed to set keys/expiry in Redis")
  else
    (msetPopulate cfg now data expiry cs, .ok "OK")

/-- `delCached(keys)` with a ready client and string keys (a single key is
passed as a one-element list).  Local entries are removed first,
unconditionally (no prefix check), guarded only by
`Object.prototype.hasOwnProperty` on `#localCache`; then the batched
Redis `DEL` runs, whose reported count (or error) is returned as-is. -/
def delCached (cs : CS) (keys : List String)
    (remoteRes : Except String Nat) : CS × Except String Nat :=
  if keys.length = 0 then (cs, .ok 0)
  else
    let cs' := keys.foldl
      (fun st k =>
        if (aget st.localCache k).isSome then
          { localCache := adel st.localCache k, ttlMap := adel st.ttlMap k }
        else st) cs
    (cs', remoteRes)

/-- The fixed invalidation channel. -/
def invalidationChannel : String := "__redis__:invalidate"

/-- One key of an invalidation payload: deleted from both maps iff it is
JS-truthy (non-empty) and prefix-qualified. -/
def invalidateStep (cfg : Config) (cs : CS) (k : String) : CS :=
  if k ≠ "" ∧ qualifiesPrefix cfg k = true then deleteLocalValue cs k else cs

/-- The `#messageListener(channel, message)` bound during setup: ignore
other channels and empty payloads, split on commas, evict each truthy
qualified key. -/
def messageListener (cfg : Config) (cs : CS) (channel message : String) : CS :=
  if channel ≠ invalidationChannel then cs
  else if message = "" then cs
  else (jsSplit message ',').foldl (invalidateStep cfg) cs

/-- Connection-level fields of a `RedisClientSideCache` instance, as far
as the teardown path observes them.  `redisClient`/`subscriber` are
`none` when the JS field is `null`; the payload is the connection's
`status` string.  `primaryClosed` records whether any step ever closed
the caller-owned primary connection (no code path below does). -/
structure Inst where
  cs : CS
  redisClient : Option String
  subscriber : Option String
  messageListenerSet : Bool
  clientCachingTriggered : Bool
  primaryClosed : Bool

/-- `disconnectInternalResources(calledFromError)` (the state-visible
part; `calledFromError` only changes awaiting/logging).  Reading
`this.#redisClient.status` on a `null` field would throw a `TypeError`,
modelled as `Except.error`; every other step is wrapped in its own
`try`/`catch` or guarded by null checks.  It clears `#localCache` (but
not the TTL map), drops the subscriber and resets the setup flag; the
primary connection is never closed. -/
def disconnectInternalResources (inst : Inst) : Except String Inst :=
  match inst.redisClient with
  | none => .error "TypeError: Cannot read properties of null (reading status)"
  | some _status =>
    let inst1 :=
      if inst.messageListenerSet ∧ inst.subscriber.isSome then
        { inst with messageListenerSet := false }
      else inst
    .ok { inst1 with
            subscriber := none
            clientCachingTriggered := false
            cs := { localCache := [], ttlMap := inst1.cs.ttlMap } }

/-- `disconnect()`: delegates to `disconnectInternalResources(false)`. -/
def disconnect (inst : Inst) : Except String Inst :=
  disconnectInternalResources inst

/-- A public operation or listener invocation, for the admission
invariant: its non-state arguments (current time, remote responses,
success flags) are carried in the constructor. -/
inductive Op : Type
  | opGet (now : Nat) (key : String) (remote : Option String) (fetchOk : Bool)
  | opSet (now : Nat) (key : String) (value : String) (expiry : Option Int)
      (remoteOk : Bool)
  | opMGet (now : Nat) (keys : List JVal) (remote : String → Option String)
      (mgetOk : Bool)
  | opMSet (now : Nat) (data : List (String × Option String))
      (expiry : Option Int) (outcome : MSetOutcome)
  | opDel (keys : List String) (remoteRes : Except String Nat)
  | opClear
  | opClose
  | opInvalidate (channel message : String)

/-- The cache-state effect of one operation (results discarded; `opClose`
is the `#localCache := {}` step of `disconnectInternalResources`). -/
def runOp (cfg : Config) (cs : CS) : Op → CS
  | .opGet now key remote fetchOk => (getCached cfg cs now key remote fetchOk).1
  | .opSet now key value expiry remoteOk =>
      (setCached cfg cs now key value expiry remoteOk).1
  | .opMGet now keys remote mgetOk => (mGetCached cfg cs now keys remote mgetOk).1
  | .opMSet now data expiry outcome => (mSetCached cfg cs now data expiry outcome).1
  | .opDel keys remoteRes => (delCached cs keys remoteRes).1
  | .opClear => clearLocalCache cs
  | .opClose => { localCache := [], ttlMap := cs.ttlMap }
  | .opInvalidate channel message => messageListener cfg cs channel message

/-- Run a sequence of operations from a state. -/
def run (cfg : Config) (cs : CS) (ops : List Op) : CS :=
  ops.foldl (runOp cfg) cs

/-- A small configuration used by the concrete witnesses below: one
tracked prefix `p:`, a 1000 ms local TTL, a 5 s default remote expiry. -/
def cfgW : Config := ⟨["p:"], 1000, 5⟩

/-- A concrete instance for the C9 witness: ready connections, listener
bound, tracking set up, one cached entry. -/
def instW : Inst :=
  ⟨⟨[("p:k", some "v")], [("p:k", 9)]⟩, some "ready", some "ready", true, true, false⟩

/-- Admission invariant on a value map: every present key qualifies. -/
def InvM (cfg : Config) (m : AList (Option String)) : Prop :=
  ∀ k, (aget m k).isSome = true → qualifiesPrefix cfg k = true

/-! ## Lookup lemmas for the object model -/

theorem aget_adel {α : Type} (m : AList α) (k k' : String) :
    aget (adel m k') k = if k = k' then none else aget m k := by
  induction m with
  | nil => simp [aget, adel]
  | cons p t ih =>
    obtain ⟨pk, pv⟩ := p
    by_cases hp : pk = k'
    · have h1 : adel ((pk, pv) :: t) k' = adel t k' := by simp [adel, hp]
      rw [h1, ih]
      by_cases hk : k = k'
      · simp [hk]
      · have hpk : ¬ pk = k := fun h => hk (h.symm.trans hp)
        simp [aget, hk, hpk]
    · have h1 : adel ((pk, pv) :: t) k' = (pk, pv) :: adel t k' := by simp [adel, hp]
      rw [h1]
      by_cases hpk : pk = k
      · have hk : ¬ k = k' := fun h => hp (hpk.trans h)
        simp [aget, hpk, hk]
      · simp [aget, hpk, ih]

theorem aget_aset {α : Type} (m : AList α) (k k' : String) (v : α) :
    aget (aset m k' v) k = if k = k' then some v else aget m k := by
  by_cases hk : k = k'
  · simp [aset, aget, hk]
  · have hk' : ¬ k' = k := fun h => hk (h ▸ rfl)
    simp [aset, aget, hk', aget_adel, hk]

/-! ## C1: the local TTL ceiling on the set path -/

/-- C1: on the facade's set path (`setCached` succeeding remotely) with a
prefix-qualified key, the stored local expiry timestamp is
`now + min(effectiveDuration, localTTL)` where `effectiveDuration` is the
TTL hint (converted to ms) if positive and the configured local TTL
otherwise: the configured local TTL is a hard ceiling on local residency
regardless of any longer requested remote expiry. -/
theorem setCached_ttl_ceiling (cfg : Config) (cs : CS) (now : Nat)
    (key : String) (value : String) (expiry : Option Int)
    (hq : qualifiesPrefix cfg key = true) :
    aget (setCached cfg cs now key value expiry true).1.ttlMap key =
      some (now +
        Nat.min
          (if 0 < effectiveExpiry cfg expiry then effectiveExpiry cfg expiry * 1000
           else cfg.localCacheTTL)
          cfg.localCacheTTL) := by
  unfold setCached setLocalValue
  rw [hq]
  simp only [Bool.true_eq_false, ite_false, if_true, aget_aset, if_pos rfl]
  congr 1
  simp only [Nat.min_def]
  split_ifs <;> omega

/-- Witness for C1 at a concrete input: TTL hint 5000 s against a 1000 ms
local TTL; the ceiling wins. -/
theorem setCached_ttl_ceiling_witness :
    aget (setCached cfgW CS.empty 0 "p:k" "v" (some 5000) true).1.ttlMap "p:k" =
      some (0 +
        Nat.min
          (if 0 < effectiveExpiry cfgW (some 5000) then
            effectiveExpiry cfgW (some 5000) * 1000
           else cfgW.localCacheTTL)
          cfgW.localCacheTTL) :=
  setCached_ttl_ceiling cfgW CS.empty 0 "p:k" "v" (some 5000) (by decide)

/-! ## C2: a null remote fetch still creates a local entry -/

/-- C2 (failing input): `getCached` on a qualified key that is locally
absent and for which Redis returns null.  The claim (and the code's own
inline comment) says a null fetched value leaves no entry, but
`#setLocalValue(key, value)` at the top of the miss path stores the null
unconditionally for qualified keys: afterwards `#localCache` holds the
key (bound to null), it is counted by `getLocalCacheStats`, and the TTL
map holds `now + localTTL`. -/
theorem getCached_null_fetch_stores_entry :
    (getCached cfgW CS.empty 0 "p:k" none true).1.localCache = [("p:k", none)] ∧
    (getCached cfgW CS.empty 0 "p:k" none true).1.ttlMap = [("p:k", 1000)] ∧
    statsSize (getCached cfgW CS.empty 0 "p:k" none true).1 = 1 ∧
    (getCached cfgW CS.empty 0 "p:k" none true).2 = .ok ⟨none, 0, 1, true⟩ := by
  refine ⟨?_, ?_, ?_, ?_⟩ <;> rfl

/-! ## C3: local hit path -/

/-- C3 (counterexample): an entry holding the empty string, present and
unexpired, is *not* served as a hit: `if (value)` is false for `""`, so
`getCached` falls through to Redis and reports `(hits=0, misses=1)` with
a remote fetch issued, where the claim requires `(hits=1, misses=0)` and
no fetch. -/
theorem getCached_empty_string_counterexample :
    (getCached cfgW ⟨[("p:k", some "")], [("p:k", 1000)]⟩ 0 "p:k" (some "") true).2 =
      .ok ⟨some "", 0, 1, true⟩ := by
  rfl

/-- C3 (amended): for every key whose local entry is present, unexpired
and holds a *non-empty* string, `getCached` returns that value with
`cacheHits = 1`, `cacheMisses = 0`, no remote fetch, and an unchanged
store; an entry holding the empty string is instead treated as a miss
and refetched. -/
theorem getCached_local_hit (cfg : Config) (cs : CS) (now : Nat)
    (key : String) (s : String) (t : Nat) (remote : Option String)
    (fetchOk : Bool) (hv : aget cs.localCache key = some (some s))
    (hs : s ≠ "") (ht : aget cs.ttlMap key = some t) (hnow : now ≤ t) :
    getCached cfg cs now key remote fetchOk = (cs, .ok ⟨some s, 1, 0, false⟩) := by
  have hguard : ¬ (t ≠ 0 ∧ t < now) := by omega
  unfold getCached getLocalValue
  simp only [ht, if_neg hguard, hv, Option.join, isTruthy]
  simp [hs]

/-- Witness for C3's amended theorem at a concrete input. -/
theorem getCached_local_hit_witness :
    getCached cfgW ⟨[("p:k", some "v")], [("p:k", 1000)]⟩ 5 "p:k" none true =
      (⟨[("p:k", some "v")], [("p:k", 1000)]⟩, .ok ⟨some "v", 1, 0, false⟩) :=
  getCached_local_hit cfgW ⟨[("p:k", some "v")], [("p:k", 1000)]⟩ 5 "p:k" "v" 1000
    none true (by rfl) (by decide) (by rfl) (by omega)

/-! ## C4: lazy expiry boundary -/

/-- C4 (counterexample): at the boundary `expiresAt = now` the guard
`ttl < Date.now()` is false, so the entry is *not* evicted and its value
is returned, where the claim requires eviction and "not found". -/
theorem getLocalValue_boundary_counterexample :
    getLocalValue ⟨[("p:k", some "v")], [("p:k", 100)]⟩ 100 "p:k" =
      (⟨[("p:k", some "v")], [("p:k", 100)]⟩, some "v") := by
  rfl

/-- C4 (amended): for a key present with positive stored expiry
`expiresAt`, a local read at `now` with `expiresAt < now` evicts the
entry (value and expiry together) and returns nothing, while with
`now ≤ expiresAt` it returns the stored value and leaves the store
unchanged: the boundary `expiresAt = now` is treated as live, not
expired. -/
theorem getLocalValue_lazy_expiry (cs : CS) (now : Nat) (key : String)
    (t : Nat) (ht : aget cs.ttlMap key = some t) (hpos : 0 < t) :
    (t < now →
      getLocalValue cs now key =
        ({ localCache := adel cs.localCache key, ttlMap := adel cs.ttlMap key },
         none)) ∧
    (now ≤ t →
      getLocalValue cs now key = (cs, (aget cs.localCache key).join)) := by
  constructor
  · intro hlt
    unfold getLocalValue
    simp only [ht]
    rw [if_pos ⟨by omega, hlt⟩]
  · intro hle
    unfold getLocalValue
    simp only [ht]
    rw [if_neg (by omega)]

/-- Witness for C4's amended theorem at a concrete input (both sides of
the conjunction applied, the second at the boundary time). -/
theorem getLocalValue_lazy_expiry_witness :
    getLocalValue ⟨[("p:k", some "v")], [("p:k", 100)]⟩ 101 "p:k" =
      (⟨adel [("p:k", some "v")] "p:k", adel [("p:k", 100)] "p:k"⟩, none) :=
  (getLocalValue_lazy_expiry ⟨[("p:k", some "v")], [("p:k", 100)]⟩ 101 "p:k" 100
    (by rfl) (by omega)).1 (by omega)

/-! ## C5: rollback of a failed batched write -/

/-- Pointwise effect of the `mSetCached` rollback fold: a key is erased
from the value map exactly when it is one of the attempted keys and
qualifies. -/
theorem aget_msetRollback (cfg : Config) (l : List (String × String))
    (c : AList (Option String)) (k : String) :
    aget (msetRollback cfg l c) k =
      if k ∈ l.map Prod.fst ∧ qualifiesPrefix cfg k = true then none
      else aget c k := by
  induction l generalizing c with
  | nil => simp [msetRollback]
  | cons q t ih =>
    simp only [msetRollback, List.foldl_cons, List.map_cons, List.mem_cons]
    rw [show List.foldl
        (fun c p => if qualifiesPrefix cfg p.1 = true then adel c p.1 else c)
        (if qualifiesPrefix cfg q.1 = true then adel c q.1 else c) t =
      msetRollback cfg t (if qualifiesPrefix cfg q.1 = true then adel c q.1 else c)
      from rfl]
    rw [ih]
    by_cases h1 : k ∈ List.map Prod.fst t ∧ qualifiesPrefix cfg k = true
    · rw [if_pos h1, if_pos ⟨Or.inr h1.1, h1.2⟩]
    · rw [if_neg h1]
      by_cases hq : k = q.1
      · by_cases hqk : qualifiesPrefix cfg k = true
        · have hq1 : qualifiesPrefix cfg q.1 = true := by rw [← hq]; exact hqk
          rw [if_pos hq1, aget_adel, if_pos hq, if_pos ⟨Or.inl hq, hqk⟩]
        · have hq1 : ¬ qualifiesPrefix cfg q.1 = true := by rw [← hq]; exact hqk
          rw [if_neg hq1, if_neg (fun h => hqk h.2)]
      · have hfc : aget (if qualifiesPrefix cfg q.1 = true then adel c q.1 else c) k =
            aget c k := by
          by_cases hq1 : qualifiesPrefix cfg q.1 = true
          · rw [if_pos hq1, aget_adel, if_neg hq]
          · rw [if_neg hq1]
        rw [hfc, if_neg]
        rintro ⟨hk | hk, hk2⟩
        · exact hq hk
        · exact h1 ⟨hk, hk2⟩

/-- C5 (counterexample): a failed `MSET` over `{p:k ↦ w}` with `p:k`
previously cached deletes the value from `#localCache` but leaves the
`#localCacheKeyTTLMap` entry behind — the claim requires value and
expiry to be removed together. -/
theorem mset_rollback_keeps_ttl_counterexample :
    (mSetCached cfgW ⟨[("p:k", some "v")], [("p:k", 50)]⟩ 7 [("p:k", some "w")]
        none .msetFail).1.localCache = [] ∧
    aget (mSetCached cfgW ⟨[("p:k", some "v")], [("p:k", 50)]⟩ 7 [("p:k", some "w")]
        none .msetFail).1.ttlMap "p:k" = some 50 ∧
    (mSetCached cfgW ⟨[("p:k", some "v")], [("p:k", 50)]⟩ 7 [("p:k", some "w")]
        none .msetFail).2 = .error "Failed to set keys/expiry in Redis" := by
  refine ⟨?_, ?_, ?_⟩ <;> rfl

/-- C5 (amended): when the batched remote write fails, every attempted
key that is prefix-qualified has its *value* removed from `#localCache`
(so no stale value can be served), the error propagates to the caller —
but the `#localCacheKeyTTLMap` bookkeeping entry of the key is not
removed (the TTL map is left exactly as it was). -/
theorem mset_failure_rollback (cfg : Config) (cs : CS) (now : Nat)
    (data : List (String × Option String)) (expiry : Option Int) (key : String)
    (hk : key ∈ (msetFiltered data).map Prod.fst)
    (hq : qualifiesPrefix cfg key = true) :
    aget (mSetCached cfg cs now data expiry .msetFail).1.localCache key = none ∧
    (mSetCached cfg cs now data expiry .msetFail).1.ttlMap = cs.ttlMap ∧
    (mSetCached cfg cs now data expiry .msetFail).2 =
      .error "Failed to set keys/expiry in Redis" := by
  have hm : ¬ (msetFiltered data).length = 0 := by
    intro h
    rw [List.length_eq_zero] at h
    rw [h] at hk
    simp at hk
  have hd : ¬ data.length = 0 := by
    intro h
    rw [List.length_eq_zero] at h
    subst h
    revert hm
    simp [msetFiltered]
  unfold mSetCached
  rw [if_neg hd, if_neg hm, if_pos rfl]
  exact ⟨by rw [aget_msetRollback, if_pos ⟨hk, hq⟩], rfl, rfl⟩

/-- Witness for C5's amended theorem at a concrete input. -/
theorem mset_failure_rollback_witness :
    aget (mSetCached cfgW ⟨[("p:k", some "v")], [("p:k", 50)]⟩ 7
        [("p:k", some "w")] none .msetFail).1.localCache "p:k" = none ∧
    (mSetCached cfgW ⟨[("p:k", some "v")], [("p:k", 50)]⟩ 7
        [("p:k", some "w")] none .msetFail).1.ttlMap = [("p:k", 50)] ∧
    (mSetCached cfgW ⟨[("p:k", some "v")], [("p:k", 50)]⟩ 7
        [("p:k", some "w")] none .msetFail).2 =
      .error "Failed to set keys/expiry in Redis" :=
  mset_failure_rollback cfgW ⟨[("p:k", some "v")], [("p:k", 50)]⟩ 7
    [("p:k", some "w")] none "p:k" (by decide) (by decide)

/-! ## C6: explicit delete -/

/-- Pointwise effect of the local-removal loop of `delCached`: the value
entry of every listed key is gone afterwards; its TTL entry is gone
exactly when the value entry existed (`hasOwnProperty` guard). -/
theorem delCached_foldl_char (keys : List String) (cs : CS) (k : String) :
    aget ((keys.foldl
        (fun st k' =>
          if (aget st.localCache k').isSome then
            { localCache := adel st.localCache k', ttlMap := adel st.ttlMap k' }
          else st) cs)).localCache k =
      (if k ∈ keys then none else aget cs.localCache k) ∧
    aget ((keys.foldl
        (fun st k' =>
          if (aget st.localCache k').isSome then
            { localCache := adel st.localCache k', ttlMap := adel st.ttlMap k' }
          else st) cs)).ttlMap k =
      (if k ∈ keys ∧ (aget cs.localCache k).isSome = true then none
       else aget cs.ttlMap k) := by
  induction keys generalizing cs with
  | nil => simp
  | cons q t ih =>
    simp only [List.foldl_cons, List.mem_cons]
    by_cases hpq : (aget cs.localCache q).isSome = true
    · rw [if_pos hpq]
      obtain ⟨ih1, ih2⟩ := ih ⟨adel cs.localCache q, adel cs.ttlMap q⟩
      rw [ih1, ih2]
      by_cases hq : k = q
      · subst hq
        simp [aget_adel, hpq]
      · simp only [aget_adel, if_neg hq]
        constructor
        · by_cases hmem : k ∈ t <;> simp [hmem, hq]
        · by_cases hmem : k ∈ t <;> simp [hmem, hq]
    · rw [if_neg hpq]
      obtain ⟨ih1, ih2⟩ := ih cs
      rw [ih1, ih2]
      by_cases hq : k = q
      · subst hq
        have hnone : aget cs.localCache k = none := by
          cases h : aget cs.localCache k with
          | none => rfl
          | some v => rw [h] at hpq; simp at hpq
        simp [hnone, hpq]
      · constructor
        · by_cases hmem : k ∈ t <;> simp [hmem, hq]
        · by_cases hmem : k ∈ t <;> simp [hmem, hq]

/-- C6: `delCached` removes every listed key from the local store
unconditionally — no prefix qualification is consulted (the statement
holds for arbitrary keys and any configured prefixes, and
`delCached` does not even take the prefix configuration) — returns
exactly what the remote `DEL` reports (its count on success, not the
local removal count), and on remote failure the local removals persist
while the error propagates unchanged. -/
theorem delCached_spec (cs : CS) (keys : List String)
    (remoteRes : Except String Nat) (hne : keys ≠ []) :
    (delCached cs keys remoteRes).2 = remoteRes ∧
    ∀ k ∈ keys,
      aget (delCached cs keys remoteRes).1.localCache k = none ∧
      ((aget cs.localCache k).isSome = true →
        aget (delCached cs keys remoteRes).1.ttlMap k = none) := by
  have hlen : ¬ keys.length = 0 := by
    intro h
    exact hne (List.length_eq_zero.mp h)
  unfold delCached
  rw [if_neg hlen]
  refine ⟨rfl, fun k hk => ?_⟩
  obtain ⟨h1, h2⟩ := delCached_foldl_char keys cs k
  exact ⟨by simp [h1, hk], fun hsome => by simp [h2, hk, hsome]⟩

/-- Witness for C6 at a concrete input: an untracked key (`q:x` does not
match the tracked prefix `p:`) is still removed, and the returned count
is the remote-reported one. -/
theorem delCached_spec_witness :
    (delCached ⟨[("q:x", some "v")], [("q:x", 99)]⟩ ["q:x"] (.ok 0)).2 = .ok 0 ∧
    ∀ k ∈ ["q:x"],
      aget (delCached ⟨[("q:x", some "v")], [("q:x", 99)]⟩ ["q:x"]
          (.ok 0)).1.localCache k = none ∧
      ((aget (⟨[("q:x", some "v")], [("q:x", 99)]⟩ : CS).localCache k).isSome = true →
        aget (delCached ⟨[("q:x", some "v")], [("q:x", 99)]⟩ ["q:x"]
            (.ok 0)).1.ttlMap k = none) :=
  delCached_spec ⟨[("q:x", some "v")], [("q:x", 99)]⟩ ["q:x"] (.ok 0) (by decide)

/-! ## C7: non-string keys in the batched get -/

/-- C7 (counterexample): a keys array containing the number `42` does not
raise — `mGetCached` warns, records a `null` result slot under the
stringified name, fetches nothing and mutates nothing; the claim requires
a synchronously raised input-validation error. -/
theorem mget_nonstring_no_error :
    mGetCached cfgW CS.empty 0 [JVal.num 42] (fun _ => none) true =
      (CS.empty, .ok ⟨[("42", none)], 0, 0⟩) := by
  rfl

/-- Bookkeeping of the first loop of `mGetCached`: every string key is
counted either as a hit or queued for the remote fetch; non-string keys
are counted as neither. -/
theorem mget_foldl_count (now : Nat) (keys : List JVal) (acc : MGetAcc) :
    (keys.foldl (mgetStep now) acc).hits +
      (keys.foldl (mgetStep now) acc).toFetch.length =
      acc.hits + acc.toFetch.length + (keys.filter JVal.isStr).length := by
  induction keys generalizing acc with
  | nil => simp
  | cons k t ih =>
    simp only [List.foldl_cons]
    cases k with
    | str s =>
      rw [ih]
      rcases h : getLocalValue acc.cs now s with ⟨cs', v⟩
      by_cases ht : isTruthy v = true
      · simp [mgetStep, h, ht, JVal.isStr]
        omega
      · simp [mgetStep, h, ht, JVal.isStr]
        omega
    | num n =>
      rw [ih]
      simp [mgetStep, JVal.isStr]

/-- C7 (amended): `mGetCached` performs no per-element string validation:
for *every* keys array (with the batched fetch succeeding when issued) the
call completes without raising, and the hit and miss counters account for
exactly the string elements — each non-string element is skipped with a
warning and a `null` result slot, contributing to neither counter and to
no fetch. -/
theorem mget_no_validation (cfg : Config) (cs : CS) (now : Nat)
    (keys : List JVal) (remote : String → Option String) :
    ∃ cs' r, mGetCached cfg cs now keys remote true = (cs', .ok r) ∧
      r.cacheHits + r.cacheMisses = (keys.filter JVal.isStr).length := by
  have hcount := mget_foldl_count now keys ⟨cs, [], 0, []⟩
  unfold mGetCached
  by_cases hm : 0 < (mgetPhase1 now keys cs).toFetch.length
  · rw [if_pos hm, if_pos rfl]
    refine ⟨_, _, rfl, ?_⟩
    simpa [mgetPhase1] using hcount
  · rw [if_neg hm]
    refine ⟨_, _, rfl, ?_⟩
    simpa [mgetPhase1] using hcount

/-! ## C8: the invalidation listener -/

/-- Pointwise effect of the eviction loop of the invalidation listener:
an entry disappears (from both maps) exactly when its key is listed,
non-empty and qualified; every other entry is untouched. -/
theorem aget_invalidate_foldl (cfg : Config) (ks : List String) (cs : CS)
    (k : String) :
    aget ((ks.foldl (invalidateStep cfg) cs)).localCache k =
      (if k ∈ ks ∧ k ≠ "" ∧ qualifiesPrefix cfg k = true then none
       else aget cs.localCache k) ∧
    aget ((ks.foldl (invalidateStep cfg) cs)).ttlMap k =
      (if k ∈ ks ∧ k ≠ "" ∧ qualifiesPrefix cfg k = true then none
       else aget cs.ttlMap k) := by
  induction ks generalizing cs with
  | nil => simp
  | cons q t ih =>
    simp only [List.foldl_cons, List.mem_cons]
    obtain ⟨ih1, ih2⟩ := ih (invalidateStep cfg cs q)
    rw [ih1, ih2]
    by_cases h1 : k ∈ t ∧ k ≠ "" ∧ qualifiesPrefix cfg k = true
    · rw [if_pos h1, if_pos ⟨Or.inr h1.1, h1.2⟩, if_pos h1,
        if_pos ⟨Or.inr h1.1, h1.2⟩]
      exact ⟨rfl, rfl⟩
    · rw [if_neg h1, if_neg h1]
      by_cases hq : k = q
      · by_cases hcond : k ≠ "" ∧ qualifiesPrefix cfg k = true
        · have hstep : invalidateStep cfg cs q = deleteLocalValue cs q := by
            unfold invalidateStep
            rw [if_pos (hq ▸ hcond)]
          rw [hstep]
          unfold deleteLocalValue
          simp only [aget_adel, if_pos hq]
          rw [if_pos ⟨Or.inl hq, hcond⟩, if_pos ⟨Or.inl hq, hcond⟩]
          exact ⟨rfl, rfl⟩
        · have hstep : invalidateStep cfg cs q = cs := by
            unfold invalidateStep
            rw [if_neg (hq ▸ hcond)]
          rw [hstep, if_neg (fun h => hcond h.2), if_neg (fun h => hcond h.2)]
          exact ⟨rfl, rfl⟩
      · have hstep :
            aget (invalidateStep cfg cs q).localCache k = aget cs.localCache k ∧
            aget (invalidateStep cfg cs q).ttlMap k = aget cs.ttlMap k := by
          unfold invalidateStep deleteLocalValue
          split_ifs with h
          · simp [aget_adel, hq]
          · exact ⟨rfl, rfl⟩
        rw [hstep.1, hstep.2]
        have hneg : ¬ ((k = q ∨ k ∈ t) ∧ k ≠ "" ∧ qualifiesPrefix cfg k = true) := by
          rintro ⟨hk | hk, hk2⟩
          · exact hq hk
          · exact h1 ⟨hk, hk2⟩
        rw [if_neg hneg, if_neg hneg]
        exact ⟨rfl, rfl⟩

/-- C8: the invalidation listener ignores every channel other than the
fixed invalidation channel and every empty payload; otherwise it splits
the payload on commas and removes exactly the listed keys that are
non-empty and prefix-qualified — value and expiry together — leaving all
other entries unchanged. -/
theorem messageListener_spec (cfg : Config) (cs : CS) (channel message : String) :
    (channel ≠ invalidationChannel → messageListener cfg cs channel message = cs) ∧
    (message = "" → messageListener cfg cs channel message = cs) ∧
    (channel = invalidationChannel → message ≠ "" →
      ∀ k,
        (k ∈ jsSplit message ',' ∧ k ≠ "" ∧ qualifiesPrefix cfg k = true →
          aget (messageListener cfg cs channel message).localCache k = none ∧
          aget (messageListener cfg cs channel message).ttlMap k = none) ∧
        (¬ (k ∈ jsSplit message ',' ∧ k ≠ "" ∧ qualifiesPrefix cfg k = true) →
          aget (messageListener cfg cs channel message).localCache k =
            aget cs.localCache k ∧
          aget (messageListener cfg cs channel message).ttlMap k =
            aget cs.ttlMap k)) := by
  refine ⟨fun hch => ?_, fun hmsg => ?_, fun hch hmsg k => ?_⟩
  · unfold messageListener
    rw [if_pos hch]
  · unfold messageListener
    by_cases hch : channel ≠ invalidationChannel
    · rw [if_pos hch]
    · rw [if_neg hch, if_pos hmsg]
  · have hrw : messageListener cfg cs channel message =
        (jsSplit message ',').foldl (invalidateStep cfg) cs := by
      unfold messageListener
      rw [if_neg (fun h => h hch), if_neg hmsg]
    obtain ⟨h1, h2⟩ := aget_invalidate_foldl cfg (jsSplit message ',') cs k
    constructor
    · intro hk
      rw [hrw, h1, h2, if_pos hk, if_pos hk]
      exact ⟨rfl, rfl⟩
    · intro hk
      rw [hrw, h1, h2, if_neg hk, if_neg hk]
      exact ⟨rfl, rfl⟩

/-- Witness for C8 at a concrete input: on the invalidation channel with
payload `p:a,q:b`, the qualified key `p:a` is evicted from both maps. -/
theorem messageListener_spec_witness :
    aget (messageListener cfgW
        ⟨[("p:a", some "1"), ("q:b", some "2")], [("p:a", 9), ("q:b", 9)]⟩
        invalidationChannel "p:a,q:b").localCache "p:a" = none ∧
    aget (messageListener cfgW
        ⟨[("p:a", some "1"), ("q:b", some "2")], [("p:a", 9), ("q:b", 9)]⟩
        invalidationChannel "p:a,q:b").ttlMap "p:a" = none :=
  ((messageListener_spec cfgW
      ⟨[("p:a", some "1"), ("q:b", some "2")], [("p:a", 9), ("q:b", 9)]⟩
      invalidationChannel "p:a,q:b").2.2 rfl (by decide) "p:a").1
    ⟨by decide, by decide, by decide⟩

/-! ## C9: idempotent teardown -/

/-- Closed form of `disconnect` on an instance whose primary-client field
is non-null (as every constructed instance's is). -/
theorem disconnect_eq (inst : Inst) (s : String) (hs : inst.redisClient = some s) :
    disconnect inst = .ok
      { inst with
          messageListenerSet :=
            if inst.messageListenerSet ∧ inst.subscriber.isSome then false
            else inst.messageListenerSet,
          subscriber := none,
          clientCachingTriggered := false,
          cs := ⟨[], inst.cs.ttlMap⟩ } := by
  by_cases hml : inst.messageListenerSet ∧ inst.subscriber.isSome <;>
    simp [disconnect, disconnectInternalResources, hs, hml]

/-- C9: with a non-null primary-client field, `disconnect` succeeds, and
calling it a second time on the result succeeds as well (no raise);
after each call the local cache is empty (`stats().size = 0`), and
neither call closes the primary connection. -/
theorem disconnect_idempotent (inst : Inst) (s : String)
    (hs : inst.redisClient = some s) :
    ∃ i1 i2, disconnect inst = .ok i1 ∧ disconnect i1 = .ok i2 ∧
      statsSize i1.cs = 0 ∧ statsSize i2.cs = 0 ∧
      i1.primaryClosed = inst.primaryClosed ∧
      i2.primaryClosed = inst.primaryClosed := by
  refine ⟨_, _, disconnect_eq inst s hs, disconnect_eq _ s hs, rfl, rfl, rfl, rfl⟩

/-- Witness for C9 at a concrete instance. -/
theorem disconnect_idempotent_witness :
    ∃ i1 i2, disconnect instW = .ok i1 ∧ disconnect i1 = .ok i2 ∧
      statsSize i1.cs = 0 ∧ statsSize i2.cs = 0 ∧
      i1.primaryClosed = instW.primaryClosed ∧
      i2.primaryClosed = instW.primaryClosed :=
  disconnect_idempotent instW "ready" rfl

/-! ## C10: only qualified keys ever enter the local cache -/

theorem invM_nil (cfg : Config) : InvM cfg [] := by
  intro k h
  simp [aget] at h

theorem invM_adel (cfg : Config) (m : AList (Option String)) (k : String)
    (h : InvM cfg m) : InvM cfg (adel m k) := by
  intro k' h'
  rw [aget_adel] at h'
  by_cases hk : k' = k
  · rw [if_pos hk] at h'
    simp at h'
  · rw [if_neg hk] at h'
    exact h k' h'

theorem invM_aset (cfg : Config) (m : AList (Option String)) (key : String)
    (v : Option String) (h : InvM cfg m)
    (hq : qualifiesPrefix cfg key = true) : InvM cfg (aset m key v) := by
  intro k' h'
  rw [aget_aset] at h'
  by_cases hk : k' = key
  · rw [hk]
    exact hq
  · rw [if_neg hk] at h'
    exact h k' h'

/-- Fold preservation helper. -/
theorem foldl_pres {β γ : Type} (P : β → Prop) (f : β → γ → β)
    (hstep : ∀ b x, P b → P (f b x)) :
    ∀ (l : List γ) (b : β), P b → P (l.foldl f b) := by
  intro l
  induction l with
  | nil => intro b hb; exact hb
  | cons x t ih => intro b hb; exact ih (f b x) (hstep b x hb)

theorem invM_setLocalValue (cfg : Config) (cs : CS) (now : Nat) (key : String)
    (v : Option String) (e : Option Nat) (h : InvM cfg cs.localCache) :
    InvM cfg (setLocalValue cfg cs now key v e).localCache := by
  unfold setLocalValue
  by_cases hq : qualifiesPrefix cfg key = false
  · rw [if_pos hq]
    exact h
  · rw [if_neg hq]
    exact invM_aset cfg cs.localCache key v h
      (by revert hq; cases qualifiesPrefix cfg key <;> simp)

theorem invM_getLocalValue (cfg : Config) (cs : CS) (now : Nat) (key : String)
    (h : InvM cfg cs.localCache) :
    InvM cfg (getLocalValue cs now key).1.localCache := by
  unfold getLocalValue
  cases ht : aget cs.ttlMap key with
  | none => exact h
  | some t =>
    by_cases hc : t ≠ 0 ∧ t < now
    · simp only [ht, if_pos hc]
      exact invM_adel cfg cs.localCache key h
    · simp only [ht, if_neg hc]
      exact h

theorem invM_getCached (cfg : Config) (cs : CS) (now : Nat) (key : String)
    (remote : Option String) (fetchOk : Bool) (h : InvM cfg cs.localCache) :
    InvM cfg (getCached cfg cs now key remote fetchOk).1.localCache := by
  unfold getCached
  rcases hgl : getLocalValue cs now key with ⟨cs1, v⟩
  have h1 : InvM cfg cs1.localCache := by
    have h1' := invM_getLocalValue cfg cs now key h
    rw [hgl] at h1'
    exact h1'
  by_cases ht : isTruthy v = true
  · simp only [hgl, ht, if_true]
    exact h1
  · by_cases hf : fetchOk = true
    · simp only [hgl, ht, if_false, hf, if_true]
      have h2 : InvM cfg (setLocalValue cfg cs1 now key remote none).localCache :=
        invM_setLocalValue cfg cs1 now key remote none h1
      by_cases hcond : remote ≠ none ∧ qualifiesPrefix cfg key = true
      · rw [if_pos hcond]
        exact invM_aset cfg _ key remote h2 hcond.2
      · rw [if_neg hcond]
        exact h2
    · simp only [hgl, ht, if_false, hf]
      exact h1

theorem invM_mgetStep (cfg : Config) (now : Nat) (acc : MGetAcc) (k : JVal)
    (h : InvM cfg acc.cs.localCache) :
    InvM cfg (mgetStep now acc k).cs.localCache := by
  cases k with
  | str s =>
    rcases hgl : getLocalValue acc.cs now s with ⟨cs', v⟩
    have h1 : InvM cfg cs'.localCache := by
      have h1' := invM_getLocalValue cfg acc.cs now s h
      rw [hgl] at h1'
      exact h1'
    by_cases ht : isTruthy v = true <;> simp only [mgetStep, hgl, ht, if_true, if_false] <;>
      exact h1
  | num n => exact h

theorem invM_msetRollback (cfg : Config) (l : List (String × String))
    (c : AList (Option String)) (h : InvM cfg c) : InvM cfg (msetRollback cfg l c) := by
  unfold msetRollback
  refine foldl_pres (InvM cfg) _ (fun c' p hc' => ?_) l c h
  by_cases hq : qualifiesPrefix cfg p.1 = true
  · rw [if_pos hq]
    exact invM_adel cfg c' p.1 hc'
  · rw [if_neg hq]
    exact hc'

theorem invM_mGetCached (cfg : Config) (cs : CS) (now : Nat) (keys : List JVal)
    (remote : String → Option String) (mgetOk : Bool) (h : InvM cfg cs.localCache) :
    InvM cfg (mGetCached cfg cs now keys remote mgetOk).1.localCache := by
  have hacc : InvM cfg (mgetPhase1 now keys cs).cs.localCache :=
    foldl_pres (fun a => InvM cfg a.cs.localCache) (mgetStep now)
      (fun a x ha => invM_mgetStep cfg now a x ha) keys ⟨cs, [], 0, []⟩ h
  have hfill : InvM cfg (mgetPhase2 cfg now remote (mgetPhase1 now keys cs)).1.localCache :=
    foldl_pres (fun pr => InvM cfg pr.1.localCache) (mgetFill cfg now remote)
      (fun pr x hpr => invM_setLocalValue cfg pr.1 now x (remote x) none hpr)
      (mgetPhase1 now keys cs).toFetch
      ((mgetPhase1 now keys cs).cs, (mgetPhase1 now keys cs).results) hacc
  unfold mGetCached
  by_cases hm : 0 < (mgetPhase1 now keys cs).toFetch.length
  · rw [if_pos hm]
    cases mgetOk
    · exact hacc
    · exact hfill
  · rw [if_neg hm]
    exact hacc

theorem invM_mSetCached (cfg : Config) (cs : CS) (now : Nat)
    (data : List (String × Option String)) (expiry : Option Int)
    (outcome : MSetOutcome) (h : InvM cfg cs.localCache) :
    InvM cfg (mSetCached cfg cs now data expiry outcome).1.localCache := by
  have hpop : InvM cfg (msetPopulate cfg now data expiry cs).localCache :=
    foldl_pres (fun st => InvM cfg st.localCache) _
      (fun st p hst => invM_setLocalValue cfg st now p.1 (some p.2) _ hst)
      (msetFiltered data) cs h
  unfold mSetCached
  by_cases hd : data.length = 0
  · rw [if_pos hd]; exact h
  · rw [if_neg hd]
    by_cases hf : (msetFiltered data).length = 0
    · rw [if_pos hf]; exact h
    · rw [if_neg hf]
      by_cases ho : outcome = .msetFail
      · rw [if_pos ho]
        exact invM_msetRollback cfg (msetFiltered data) cs.localCache h
      · rw [if_neg ho]
        by_cases he : 0 < effectiveExpiry cfg expiry ∧ outcome = .expireFail
        · rw [if_pos he]
          exact invM_msetRollback cfg (msetFiltered data) _ hpop
        · rw [if_neg he]
          exact hpop

theorem invM_delCached (cfg : Config) (cs : CS) (keys : List String)
    (remoteRes : Except String Nat) (h : InvM cfg cs.localCache) :
    InvM cfg (delCached cs keys remoteRes).1.localCache := by
  unfold delCached
  by_cases hd : keys.length = 0
  · rw [if_pos hd]; exact h
  · rw [if_neg hd]
    refine foldl_pres (fun st => InvM cfg st.localCache) _
      (fun st k hst => ?_) keys cs h
    by_cases hp : (aget st.localCache k).isSome = true
    · rw [if_pos hp]
      exact invM_adel cfg st.localCache k hst
    · rw [if_neg hp]
      exact hst

theorem invM_messageListener (cfg : Config) (cs : CS) (channel message : String)
    (h : InvM cfg cs.localCache) :
    InvM cfg (messageListener cfg cs channel message).localCache := by
  unfold messageListener
  by_cases hch : channel ≠ invalidationChannel
  · rw [if_pos hch]; exact h
  · rw [if_neg hch]
    by_cases hmsg : message = ""
    · rw [if_pos hmsg]; exact h
    · rw [if_neg hmsg]
      refine foldl_pres (fun st => InvM cfg st.localCache) _
        (fun st k hst => ?_) (jsSplit message ',') cs h
      unfold invalidateStep deleteLocalValue
      by_cases hc : k ≠ "" ∧ qualifiesPrefix cfg k = true
      · rw [if_pos hc]
        exact invM_adel cfg st.localCache k hst
      · rw [if_neg hc]
        exact hst

theorem invM_runOp (cfg : Config) (cs : CS) (op : Op)
    (h : InvM cfg cs.localCache) : InvM cfg (runOp cfg cs op).localCache := by
  cases op with
  | opGet now key remote fetchOk =>
    exact invM_getCached cfg cs now key remote fetchOk h
  | opSet now key value expiry remoteOk =>
    cases remoteOk
    · exact h
    · exact invM_setLocalValue cfg cs now key (some value)
        (some (effectiveExpiry cfg expiry)) h
  | opMGet now keys remote mgetOk =>
    exact invM_mGetCached cfg cs now keys remote mgetOk h
  | opMSet now data expiry outcome =>
    exact invM_mSetCached cfg cs now data expiry outcome h
  | opDel keys remoteRes => exact invM_delCached cfg cs keys remoteRes h
  | opClear => exact invM_nil cfg
  | opClose => exact invM_nil cfg
  | opInvalidate channel message =>
    exact invM_messageListener cfg cs channel message h

/-- C10: starting from the empty local store, after any sequence of
public operations and invalidation-listener invocations, every key
present in the local cache map starts with at least one of the
configured prefixes: no code path ever inserts a non-qualified key. -/
theorem run_prefix_invariant (cfg : Config) (ops : List Op) (k : String)
    (h : (aget (run cfg CS.empty ops).localCache k).isSome = true) :
    ∃ p ∈ cfg.prefixes, jsStartsWith k p = true := by
  have hinv : InvM cfg (run cfg CS.empty ops).localCache := by
    unfold run
    exact foldl_pres (fun st => InvM cfg st.localCache) (runOp cfg)
      (fun st op hst => invM_runOp cfg st op hst) ops CS.empty (invM_nil cfg)
  have hq := hinv k h
  unfold qualifiesPrefix at hq
  by_cases hlen : cfg.prefixes.length = 0
  · rw [if_pos hlen] at hq
    simp at hq
  · rw [if_neg hlen] at hq
    exact List.any_eq_true.mp hq

/-- Witness for C10 at a concrete sequence: one successful tracked set. -/
theorem run_prefix_invariant_witness :
    (aget (run cfgW CS.empty [Op.opSet 0 "p:k" "v" none true]).localCache
        "p:k").isSome = true ∧
    ∃ p ∈ cfgW.prefixes, jsStartsWith "p:k" p = true :=
  ⟨by decide,
   run_prefix_invariant cfgW [Op.opSet 0 "p:k" "v" none true] "p:k" (by decide)⟩

end RedisCSC
